import Mathlib

/-!
Shallow embedding of `src/ttf2dxf-1.c` (a TrueType-to-DXF converter) and
proofs about its geometry engine, extents tracker, record emitter and
control flow.

Modelling conventions:
* C `double` is embedded as `ℝ`; C `long int` / `FT_Pos` as `ℤ`.
* Every `printf` that writes an output record is embedded as one
  constructor of `Rec`, carrying exactly the data interpolated into the
  format string.  The format strings themselves are recorded in the doc
  comments of the constructors.
* The implicit C conversion `double` to `long` (used when a sampled curve
  point is stored back into an `FT_Vector`) truncates toward zero and is
  embedded as `dtoi`.
* `atan2` of libm is embedded via `Complex.arg` (same value and the same
  range `(-pi, pi]` for the argument conventions used here); the two
  angle-normalising `while` loops of `arc` are embedded by their exact
  closed forms.
* FreeType itself is external: a font is modelled as a partial map from
  character codes to glyphs (outline events at the 64-pixel size, the
  advance vector, and the monochrome bitmap used by the `-l` mode).
  `FT_Get_Char_Index` returning 0 is modelled as the map returning `none`.
-/

namespace Ttf2dxf

/-- Plane point with `double` coordinates, `typedef struct { double x, y; } P`. -/
structure P where
  x : ℝ
  y : ℝ

/-- Integer point, standing for `FT_Vector` (`FT_Pos` = `long` fields). -/
structure V where
  x : ℤ
  y : ℤ
deriving DecidableEq

/-- C helper `max(double a, double b)` of the source (line 58). -/
noncomputable def max (a b : ℝ) : ℝ := if a < b then b else a

/-- Conversion `ft2p`: an `FT_Vector` read into a `P`. -/
noncomputable def ft2p (v : V) : P := ⟨(v.x : ℝ), (v.y : ℝ)⟩

/-- Dot product `dot`. -/
noncomputable def dot (a b : P) : ℝ := a.x * b.x + a.y * b.y

/-- Magnitude `mag(a) = sqrt(dot(a,a))`. -/
noncomputable def mag (a : P) : ℝ := Real.sqrt (dot a a)

/-- Scalar multiple `scale`. -/
noncomputable def scale (a : P) (b : ℝ) : P := ⟨a.x * b, a.y * b⟩

/-- Point sum `add`. -/
noncomputable def add (a b : P) : P := ⟨a.x + b.x, a.y + b.y⟩

/-- Three-point sum `add3`. -/
noncomputable def add3 (a b c : P) : P := ⟨a.x + b.x + c.x, a.y + b.y + c.y⟩

/-- Four-point sum `add4`. -/
noncomputable def add4 (a b c d : P) : P := ⟨a.x + b.x + c.x + d.x, a.y + b.y + c.y + d.y⟩

/-- Difference `sub`. -/
noncomputable def sub (a b : P) : P := ⟨a.x - b.x, a.y - b.y⟩

/-- Normalisation `unit`: the zero vector maps to the zero vector. -/
noncomputable def unit (a : P) : P :=
  if mag a ≠ 0 then ⟨a.x / mag a, a.y / mag a⟩ else ⟨0, 0⟩

/-- Truncation toward zero, the C conversion `(long)(double)` and the
`(int)` cast applied to a non-negative `double`. -/
noncomputable def dtoi (x : ℝ) : ℤ := if x < 0 then ⌈x⌉ else ⌊x⌋

/-- One output record: each constructor is one record-writing `printf` of
the source. -/
inductive Rec where
  /-- `line()`: `"  10\n%.4f\n 20\n%.4f\n"` — a plain vertex with real
  coordinates and no bulge. -/
  | vertex (x y : ℝ)
  /-- `arc()` degenerate branch: `"G1 X[%.4f*#3+#5] Y[%.4f*#3+#6]\n"` — a
  leftover G-code motion line, not a DXF group-code record. -/
  | gcode (x y : ℝ)
  /-- `arc()` main branch: `"  42\n%.4f\n 10\n%.4f\n  20\n%.4f\n"` — a
  bulge value followed by the vertex coordinates. -/
  | bulgeVertex (bulge x y : ℝ)
  /-- `my_move_to`: `"  0\nLWPOLYLINE\n  10\n%ld.000\n 20\n%ld.000\n"` — a
  new polyline started at integer coordinates. -/
  | polyStart (x y : ℤ)
  /-- `my_line_to`: `"  10\n%ld.000\n 20\n%ld.000\n"` — a plain vertex with
  integer coordinates. -/
  | intVertex (x y : ℤ)
  /-- `maybe_output_layer`: `"  8\n...\n"` — a layer tag. -/
  | layerTag (name : String)
  /-- One `DIMENSION` group in `main`: the metric name and its `%ld` value. -/
  | dimension (name : String) (value : ℤ)

/-- Emitter `line(P p)` (source lines 83-86). -/
noncomputable def line (p : P) : List Rec := [Rec.vertex p.x p.y]

/-- Libm `atan2(y, x)` as the argument of the complex number `x + i y`. -/
noncomputable def atan2 (y x : ℝ) : ℝ := Complex.arg ⟨x, y⟩

/-- Closed form of `while(en <= st) en += 2*M_PI`: the first value
`en + 2*pi*k` (k ≥ 0) strictly above `st`. -/
noncomputable def arcEndUp (st en : ℝ) : ℝ :=
  if st < en then en
  else en + 2 * Real.pi * ((⌊(st - en) / (2 * Real.pi)⌋ + 1 : ℤ) : ℝ)

/-- Closed form of `while(en >= st) en -= 2*M_PI`: the first value
`en - 2*pi*k` (k ≥ 0) strictly below `st`. -/
noncomputable def arcEndDown (st en : ℝ) : ℝ :=
  if en < st then en
  else en - 2 * Real.pi * ((⌊(en - st) / (2 * Real.pi)⌋ + 1 : ℤ) : ℝ)

/-- Emitter `arc(P p1, P p2, P d)` (source lines 88-116): one circular arc
from `p1` to `p2` entered with tangent direction `d`, written as a bulge
vertex; nearly collinear input falls through to the degenerate `printf`. -/
noncomputable def arc (p1 p2 d0 : P) : List Rec :=
  let d := unit d0
  let p := sub p2 p1
  let den := 2 * (p.y * d.x - p.x * d.y)
  if |den| < 1e-10 then [Rec.gcode p2.x p2.y]
  else
    let r := -(dot p p) / den
    let i := d.y * r
    let j := -d.x * r
    let c : P := ⟨p1.x + i, p1.y + j⟩
    let st := atan2 (p1.y - c.y) (p1.x - c.x)
    let en0 := atan2 (p2.y - c.y) (p2.x - c.x)
    let en := if r < 0 then arcEndUp st en0 else arcEndDown st en0
    let bulge0 := Real.tan (|en - st| / 4)
    let bulge := if r > 0 then -bulge0 else bulge0
    [Rec.bulgeVertex bulge p2.x p2.y]

/-- Biarc fitter `biarc(P p0, P ts, P p4, P te, double r)` (source lines
118-154). -/
noncomputable def biarc (p0 ts0 p4 te0 : P) (r : ℝ) : List Rec :=
  let ts := unit ts0
  let te := unit te0
  let v := sub p0 p4
  let c := dot v v
  let b := 2 * dot v (add (scale ts r) te)
  let a := 2 * r * (dot ts te - 1)
  let disc := b * b - 4 * a * c
  if a = 0 ∨ disc < 0 then line p4
  else
    let disq := Real.sqrt disc
    let beta1 := (-b - disq) / 2 / a
    let beta2 := (-b + disq) / 2 / a
    let beta := max beta1 beta2
    if beta ≤ 0 then line p4
    else
      let alpha := beta * r
      let ab := alpha + beta
      let p1 := add p0 (scale ts alpha)
      let p3 := add p4 (scale te (-beta))
      let p2 := add (scale p1 (beta / ab)) (scale p3 (alpha / ab))
      let tm := sub p3 p2
      arc p0 p2 ts ++ arc p2 p4 tm

/-- Bounding box `struct extents` (`long int` fields). -/
structure Extents where
  minx : ℤ
  maxx : ℤ
  miny : ℤ
  maxy : ℤ
deriving DecidableEq

/-- Reset `extents_reset` (source lines 184-190): min fields to `+2e9`,
max fields to `-2e9`. -/
def extents_reset : Extents :=
  ⟨2000000000, -2000000000, 2000000000, -2000000000⟩

/-- Merge one point, `extents_add_point` (source lines 193-199). -/
def extents_add_point (e : Extents) (p : V) : Extents :=
  ⟨if p.x < e.minx then p.x else e.minx,
   if p.x > e.maxx then p.x else e.maxx,
   if p.y < e.miny then p.y else e.miny,
   if p.y > e.maxy then p.y else e.maxy⟩

/-- Merge a whole box, `extents_add_extents` (source lines 203-209). -/
def extents_add_extents (e1 e2 : Extents) : Extents :=
  ⟨if e2.minx < e1.minx then e2.minx else e1.minx,
   if e2.maxx > e1.maxx then e2.maxx else e1.maxx,
   if e2.miny < e1.miny then e2.miny else e1.miny,
   if e2.maxy > e1.maxy then e2.maxy else e1.maxy⟩

/-- Box accumulated from a point list starting at `extents_reset`. -/
def boxOf (ps : List V) : Extents := ps.foldl extents_add_point extents_reset

/-- One extents-tracker call: either `extents_add_point p`, or
`extents_add_extents` with a box that was itself accumulated from a point
list after a reset (in the program the second argument of
`extents_add_extents` is always `glyph_extents`, a box of points). -/
inductive EOp where
  | point (p : V)
  | box (ps : List V)

/-- Apply one tracker call. -/
def applyEOp (e : Extents) : EOp → Extents
  | .point p => extents_add_point e p
  | .box ps => extents_add_extents e (boxOf ps)

/-- The points a call passes in. -/
def opPoints : EOp → List V
  | .point p => [p]
  | .box ps => ps

/-- All points of a call sequence. -/
def allPts (ops : List EOp) : List V := (ops.map opPoints).flatten

/-- State reached from `extents_reset` by a call sequence. -/
def runEOps (ops : List EOp) : Extents := ops.foldl applyEOp extents_reset

/-- Coordinates strictly between the reset sentinels. -/
def inBounds (p : V) : Prop :=
  -2000000000 < p.x ∧ p.x < 2000000000 ∧ -2000000000 < p.y ∧ p.y < 2000000000

instance (p : V) : Decidable (inBounds p) := by
  unfold inBounds; infer_instance

/-- Configuration globals of the program: `genfont`, `layer`, `csteps`,
`dsteps`, and `main`'s local `linescale`. -/
structure Cfg where
  genfont : Bool
  layer : Option String
  csteps : ℕ
  dsteps : ℝ
  linescale : ℤ

/-- Layer emitter `maybe_output_layer` (source lines 211-222), as a
function of the globals and `charcode`; `none` stands for printing no
layer group at all. -/
def maybe_output_layer (cfg : Cfg) (charcode : ℤ) : Option Rec :=
  if cfg.genfont then
    if charcode < 32 ∨ charcode > 126 then
      some (Rec.layerTag ("_" ++ toString charcode))
    else
      some (Rec.layerTag (String.singleton (Char.ofNat charcode.toNat)))
  else
    match cfg.layer with
    | some l => some (Rec.layerTag l)
    | none => none

/-- Layer-tag selection restated from the specification's own words: the
literal character for a printable code in `[32, 126]`, an
underscore-prefixed decimal code otherwise; a user layer name when not in
font-generation mode; else no tag. -/
def layerTagSpec (genfont : Bool) (userLayer : Option String) (c : ℤ) : Option String :=
  if genfont then
    some (if 32 ≤ c ∧ c ≤ 126 then String.singleton (Char.ofNat c.toNat)
          else "_" ++ toString c)
  else userLayer

/-- Mutable globals threaded through the outline walker: `last_point`,
`glyph_extents`, `line_extents`, `charcode`, `advance`, and the `static
int odd` of `my_draw_bitmap`. -/
structure St where
  last : V
  glyphE : Extents
  lineE : Extents
  charcode : ℤ
  adv : V
  odd : Bool

/-- Handler `my_move_to` (source lines 225-235): polyline start record,
optional layer tag, cursor and extents update. -/
def my_move_to (cfg : Cfg) (tov : V) (s : St) : St × List Rec :=
  ({s with last := tov, glyphE := extents_add_point s.glyphE tov},
   Rec.polyStart tov.x tov.y :: (maybe_output_layer cfg s.charcode).toList)

/-- Handler `my_line_to` (source lines 240-247): plain vertex record,
cursor and extents update. -/
def my_line_to (tov : V) (s : St) : St × List Rec :=
  ({s with last := tov, glyphE := extents_add_point s.glyphE tov},
   [Rec.intVertex tov.x tov.y])

/-- Square helper `SQ`. -/
noncomputable def SQ (a : ℝ) : ℝ := a * a

/-- Cube helper `CUBE`. -/
noncomputable def CUBE (a : ℝ) : ℝ := a * a * a

/-- Quadratic Bezier sample of `my_conic_to`'s estimation loop at
parameter `tf`: x coordinate. -/
noncomputable def conicX (last ctl tov : V) (tf : ℝ) : ℝ :=
  SQ (1 - tf) * last.x + 2 * tf * (1 - tf) * ctl.x + SQ tf * tov.x

/-- Quadratic Bezier sample, y coordinate. -/
noncomputable def conicY (last ctl tov : V) (tf : ℝ) : ℝ :=
  SQ (1 - tf) * last.y + 2 * tf * (1 - tf) * ctl.y + SQ tf * tov.y

/-- Length-estimation loop of `my_conic_to` (source lines 260-269): the
chord length summed over `csteps` samples; the previous sample is kept in
an `FT_Vector`, so it is truncated to integers before the next chord is
measured (the C assignment `point.x = x`). -/
noncomputable def conicLen (csteps : ℕ) (last ctl tov : V) : ℝ :=
  ((List.range csteps).foldl
    (fun (acc : (ℤ × ℤ) × ℝ) t =>
      let tf : ℝ := ((t + 1 : ℕ) : ℝ) / (csteps : ℝ)
      let x := conicX last ctl tov tf
      let y := conicY last ctl tov tf
      ((dtoi x, dtoi y),
       acc.2 + Real.sqrt (SQ (x - acc.1.1) + SQ (y - acc.1.2))))
    ((last.x, last.y), 0)).2

/-- Extents side effect of the same estimation loop: every truncated
sample is merged into the glyph extents. -/
noncomputable def conicSampleExtents (csteps : ℕ) (last ctl tov : V) (e : Extents) : Extents :=
  (List.range csteps).foldl
    (fun e t =>
      let tf : ℝ := ((t + 1 : ℕ) : ℝ) / (csteps : ℝ)
      extents_add_point e ⟨dtoi (conicX last ctl tov tf), dtoi (conicY last ctl tov tf)⟩)
    e

/-- Subdivision count `int steps = (int)max(2, len/dsteps)` of
`my_conic_to` (source line 275). -/
noncomputable def conicSteps (csteps : ℕ) (dsteps : ℝ) (last ctl tov : V) : ℤ :=
  dtoi (max 2 (conicLen csteps last ctl tov / dsteps))

/-- State-threading loop with one emission per iteration: the shape shared
by the biarc sweeps of `my_conic_to` and `my_cubic_to` (each iteration
computes a new `(point, tangent)` state from the index and emits one
`biarc` argument tuple from the previous state). -/
def emitFold {β γ : Type _} (F : β → ℕ → β) (H : β → ℕ → γ) (l : List ℕ) (st : β) :
    β × List γ :=
  l.foldl (fun a k => (F a.1 k, a.2 ++ [H a.1 k])) (st, [])

/-- Biarc sweep of `my_conic_to` (source lines 271-285): the list of
argument tuples `(ps, ts, p, t)` passed to `biarc`, threading the previous
sample pair exactly as the loop does. -/
noncomputable def conicArgs (csteps : ℕ) (dsteps : ℝ) (last ctl tov : V) :
    List (P × P × P × P) :=
  let p0 := ft2p last
  let p1 := ft2p ctl
  let p2 := ft2p tov
  let q0 := sub p1 p0
  let q1 := sub p2 p1
  let steps := (conicSteps csteps dsteps last ctl tov).toNat
  (emitFold
    (fun _ k =>
      let tf : ℝ := ((k + 1 : ℕ) : ℝ) / (steps : ℝ)
      let t1 := 1 - tf
      (add3 (scale p0 (SQ t1)) (scale p1 (2 * tf * t1)) (scale p2 (SQ tf)),
       add (scale q0 t1) (scale q1 tf)))
    (fun a k =>
      let tf : ℝ := ((k + 1 : ℕ) : ℝ) / (steps : ℝ)
      let t1 := 1 - tf
      (a.1, a.2,
       add3 (scale p0 (SQ t1)) (scale p1 (2 * tf * t1)) (scale p2 (SQ tf)),
       add (scale q0 t1) (scale q1 tf)))
    (List.range steps) (p0, q0)).2

/-- Handler `my_conic_to` (source lines 252-289). -/
noncomputable def my_conic_to (cfg : Cfg) (ctl tov : V) (s : St) : St × List Rec :=
  ({s with glyphE := conicSampleExtents cfg.csteps s.last ctl tov s.glyphE,
           last := tov},
   ((conicArgs cfg.csteps cfg.dsteps s.last ctl tov).map
     (fun a => biarc a.1 a.2.1 a.2.2.1 a.2.2.2 1.0)).flatten)

/-- Cubic Bezier sample of `my_cubic_to`'s estimation loop, x coordinate. -/
noncomputable def cubicX (last c1 c2 tov : V) (tf : ℝ) : ℝ :=
  CUBE (1 - tf) * last.x + SQ (1 - tf) * 3 * tf * c1.x +
    SQ tf * (1 - tf) * 3 * c2.x + CUBE tf * tov.x

/-- Cubic Bezier sample, y coordinate. -/
noncomputable def cubicY (last c1 c2 tov : V) (tf : ℝ) : ℝ :=
  CUBE (1 - tf) * last.y + SQ (1 - tf) * 3 * tf * c1.y +
    SQ tf * (1 - tf) * 3 * c2.y + CUBE tf * tov.y

/-- Length-estimation loop of `my_cubic_to` (source lines 302-316). -/
noncomputable def cubicLen (csteps : ℕ) (last c1 c2 tov : V) : ℝ :=
  ((List.range csteps).foldl
    (fun (acc : (ℤ × ℤ) × ℝ) t =>
      let tf : ℝ := ((t + 1 : ℕ) : ℝ) / (csteps : ℝ)
      let x := cubicX last c1 c2 tov tf
      let y := cubicY last c1 c2 tov tf
      ((dtoi x, dtoi y),
       acc.2 + Real.sqrt (SQ (x - acc.1.1) + SQ (y - acc.1.2))))
    ((last.x, last.y), 0)).2

/-- Extents side effect of the cubic estimation loop. -/
noncomputable def cubicSampleExtents (csteps : ℕ) (last c1 c2 tov : V) (e : Extents) : Extents :=
  (List.range csteps).foldl
    (fun e t =>
      let tf : ℝ := ((t + 1 : ℕ) : ℝ) / (csteps : ℝ)
      extents_add_point e ⟨dtoi (cubicX last c1 c2 tov tf), dtoi (cubicY last c1 c2 tov tf)⟩)
    e

/-- Subdivision count of `my_cubic_to` (source line 318). -/
noncomputable def cubicSteps (csteps : ℕ) (dsteps : ℝ) (last c1 c2 tov : V) : ℤ :=
  dtoi (max 2 (cubicLen csteps last c1 c2 tov / dsteps))

/-- Biarc sweep of `my_cubic_to` (source lines 318-334): the argument
tuples passed to `biarc`. -/
noncomputable def cubicArgs (csteps : ℕ) (dsteps : ℝ) (last c1 c2 tov : V) :
    List (P × P × P × P) :=
  let p0 := ft2p last
  let p1 := ft2p c1
  let p2 := ft2p c2
  let p3 := ft2p tov
  let q0 := sub p1 p0
  let q1 := sub p2 p1
  let q2 := sub p3 p2
  let steps := (cubicSteps csteps dsteps last c1 c2 tov).toNat
  (emitFold
    (fun _ k =>
      let tf : ℝ := ((k + 1 : ℕ) : ℝ) / (steps : ℝ)
      let t1 := 1 - tf
      (add4 (scale p0 (CUBE t1)) (scale p1 (3 * tf * SQ t1))
        (scale p2 (3 * SQ tf * t1)) (scale p3 (CUBE tf)),
       add3 (scale q0 (SQ t1)) (scale q1 (2 * tf * t1)) (scale q2 (SQ tf))))
    (fun a k =>
      let tf : ℝ := ((k + 1 : ℕ) : ℝ) / (steps : ℝ)
      let t1 := 1 - tf
      (a.1, a.2,
       add4 (scale p0 (CUBE t1)) (scale p1 (3 * tf * SQ t1))
        (scale p2 (3 * SQ tf * t1)) (scale p3 (CUBE tf)),
       add3 (scale q0 (SQ t1)) (scale q1 (2 * tf * t1)) (scale q2 (SQ tf))))
    (List.range steps) (p0, q0)).2

/-- Handler `my_cubic_to` (source lines 294-339). -/
noncomputable def my_cubic_to (cfg : Cfg) (c1 c2 tov : V) (s : St) : St × List Rec :=
  ({s with glyphE := cubicSampleExtents cfg.csteps s.last c1 c2 tov s.glyphE,
           last := tov},
   ((cubicArgs cfg.csteps cfg.dsteps s.last c1 c2 tov).map
     (fun a => biarc a.1 a.2.1 a.2.2.1 a.2.2.2 1.0)).flatten)

/-- Monochrome glyph bitmap: `FT_Bitmap` as used by `my_draw_bitmap`
(`rows`, `|pitch|` bytes per row, row-major byte buffer). -/
structure Bitmap where
  rows : ℕ
  pitch : ℕ
  buffer : List ℕ
deriving DecidableEq

/-- Bit `idx` of row `j` (most significant bit first within each byte):
`b->buffer[j*pitch + i] & (0x80 >> bits)` with `i = idx / 8`,
`bits = idx % 8`. -/
def bitOf (b : Bitmap) (j idx : ℕ) : Bool :=
  (b.buffer.getD (j * b.pitch + idx / 8) 0) &&& (128 >>> (idx % 8)) != 0

/-- Row y coordinate of `my_draw_bitmap`:
`(y-j)*64*64/linescale - 64*32/linescale` with C integer division
(truncation toward zero, `Int.tdiv`). -/
def rowY (yoff linescale : ℤ) (j : ℕ) : ℤ :=
  Int.tdiv ((yoff - (j : ℤ)) * 64 * 64) linescale - Int.tdiv (64 * 32) linescale

/-- Span collection of one bitmap row (source lines 350-376): scans the
row's bits left to right tracking `oldbit`, pushes a span start (`v.x +=
8`) on a rising edge, a span end (`v.x -= 8`) on a falling edge unless the
adjusted span is empty (then the start is popped again, `spans--`), and
closes a span still open at the row's end.  Returns the final `oldv` (it
persists across rows within one call) and the vertex buffer. -/
def rowSpans (b : Bitmap) (xoff vy : ℤ) (j : ℕ) (oldv0 : V) : V × List V :=
  let r := (List.range (b.pitch * 8)).foldl
    (fun (acc : Bool × V × V × List V) idx =>
      let (oldbit, oldv, _v, vbuf) := acc
      let bit := bitOf b j idx
      let vx := (idx : ℤ) + xoff
      if !oldbit && bit then
        (bit, ⟨vx + 8, vy⟩, ⟨vx + 8, vy⟩, vbuf ++ [⟨vx + 8, vy⟩])
      else if oldbit && !bit then
        (bit, oldv, ⟨vx - 8, vy⟩,
         if oldv.x < vx - 8 then vbuf ++ [⟨vx - 8, vy⟩] else vbuf.dropLast)
      else
        (bit, oldv, ⟨vx, vy⟩, vbuf))
    (false, oldv0, ⟨0, 0⟩, [])
  (r.2.1, if r.1 then r.2.2.2 ++ [⟨r.2.2.1.x - 8, r.2.2.1.y⟩] else r.2.2.2)

/-- One row of `my_draw_bitmap` (source lines 349-390): collect the row's
spans, toggle the global `odd`, and emit each span as one
`my_move_to`/`my_line_to` pair — in reverse order and direction on odd
rows. -/
def drawRow (cfg : Cfg) (b : Bitmap) (xoff yoff linescale : ℤ) (j : ℕ)
    (s : St) (oldv0 : V) : St × V × List Rec :=
  let vy := rowY yoff linescale j
  let rs := rowSpans b xoff vy j oldv0
  let s1 := {s with odd := !s.odd}
  let spans := rs.2.length / 2
  let idxs := if s1.odd then (List.range spans).reverse else List.range spans
  let out := idxs.foldl
    (fun (acc : St × List Rec) i =>
      let a := if s1.odd then rs.2.getD (2 * i + 1) ⟨0, 0⟩ else rs.2.getD (2 * i) ⟨0, 0⟩
      let bb := if s1.odd then rs.2.getD (2 * i) ⟨0, 0⟩ else rs.2.getD (2 * i + 1) ⟨0, 0⟩
      let m := my_move_to cfg a acc.1
      let l := my_line_to bb m.1
      (l.1, acc.2 ++ m.2 ++ l.2))
    (s1, [])
  (out.1, rs.1, out.2)

/-- Bitmap tracer `my_draw_bitmap` (source lines 341-391).  The winding
toggle `static int odd` lives in `St` (process lifetime, never reset);
`oldv` is a function local initialised to `{99999, 0}`. -/
def my_draw_bitmap (cfg : Cfg) (b : Bitmap) (xoff yoff linescale : ℤ)
    (s : St) : St × List Rec :=
  let r := (List.range b.rows).foldl
    (fun (acc : St × V × List Rec) j =>
      let d := drawRow cfg b xoff yoff linescale j acc.1 acc.2.1
      (d.1, d.2.1, acc.2.2 ++ d.2.2))
    (s, ⟨99999, 0⟩, [])
  (r.1, r.2.2)

/-- Outline segment event, the callbacks of `FT_Outline_Funcs`. -/
inductive Ev where
  | moveTo (tov : V)
  | lineTo (tov : V)
  | conicTo (ctl tov : V)
  | cubicTo (c1 c2 tov : V)
deriving DecidableEq

/-- Horizontal shift `FT_Outline_Translate(&outline, offset, 0)`. -/
def evTranslate (off : ℤ) : Ev → Ev
  | .moveTo t => .moveTo ⟨t.x + off, t.y⟩
  | .lineTo t => .lineTo ⟨t.x + off, t.y⟩
  | .conicTo c t => .conicTo ⟨c.x + off, c.y⟩ ⟨t.x + off, t.y⟩
  | .cubicTo c1 c2 t => .cubicTo ⟨c1.x + off, c1.y⟩ ⟨c2.x + off, c2.y⟩ ⟨t.x + off, t.y⟩

/-- Dispatch of one outline event to its handler. -/
noncomputable def runEv (cfg : Cfg) (s : St) : Ev → St × List Rec
  | .moveTo t => my_move_to cfg t s
  | .lineTo t => my_line_to t s
  | .conicTo c t => my_conic_to cfg c t s
  | .cubicTo c1 c2 t => my_cubic_to cfg c1 c2 t s

/-- Walk of a whole outline, `FT_Outline_Decompose` driving the handlers
in order. -/
noncomputable def decompose (cfg : Cfg) (s : St) (evs : List Ev) : St × List Rec :=
  evs.foldl (fun acc e => let r := runEv cfg acc.1 e; (r.1, acc.2 ++ r.2)) (s, [])

/-- One glyph as the font-rendering library serves it: outline events at
the 64-pixel size, the advance vector, and the monochrome bitmap (with
its left/top origin) used when `linescale > 0`. -/
structure Glyph where
  events : List Ev
  advance : V
  bitmap : Bitmap
  bitmapLeft : ℤ
  bitmapTop : ℤ

/-- A font: glyph lookup per character code; `none` models
`FT_Get_Char_Index` returning index 0. -/
def Font : Type := ℤ → Option Glyph

/-- Character renderer `render_char` (source lines 394-455): sets
`charcode`, returns `-1` and emits nothing when the glyph lookup fails;
otherwise traces the bitmap when `linescale > 0`, decomposes the outline
translated by `offset`, saves the advance and returns `advance.x`.  The
FreeType size/load/render calls themselves are external and modelled as
succeeding (their failure path is `handle_ft_error`). -/
noncomputable def render_char (cfg : Cfg) (font : Font) (c : ℤ) (off : ℤ)
    (s : St) : ℤ × St × List Rec :=
  let s0 := {s with charcode := c}
  match font c with
  | none => (-1, s0, [])
  | some g =>
    let b := if 0 < cfg.linescale then
        my_draw_bitmap cfg g.bitmap (g.bitmapLeft + off) g.bitmapTop cfg.linescale s0
      else (s0, [])
    let d := decompose cfg b.1 (g.events.map (evTranslate off))
    (g.advance.x, {d.1 with adv := g.advance}, b.2 ++ d.2)

/-- The six `DIMENSION` records `main` prints per glyph in font-generation
mode (source lines 534-545), each followed by `maybe_output_layer()`. -/
def dimRecs (cfg : Cfg) (e : Extents) (adv : V) (cc : ℤ) : List Rec :=
  [Rec.dimension "minx" e.minx] ++ (maybe_output_layer cfg cc).toList ++
  [Rec.dimension "maxx" e.maxx] ++ (maybe_output_layer cfg cc).toList ++
  [Rec.dimension "miny" e.miny] ++ (maybe_output_layer cfg cc).toList ++
  [Rec.dimension "maxy" e.maxy] ++ (maybe_output_layer cfg cc).toList ++
  [Rec.dimension "advx" adv.x] ++ (maybe_output_layer cfg cc).toList ++
  [Rec.dimension "advy" adv.y] ++ (maybe_output_layer cfg cc).toList

/-- One iteration of `main`'s font-generation loop (source lines 531-546):
render the character at offset 0; on failure (`< 0`) continue; on success
merge the glyph box into `line_extents` and print the six dimension
records.  Note the loop never calls `extents_reset(&glyph_extents)`. -/
noncomputable def genfontStep (cfg : Cfg) (font : Font) (s : St) (wc : ℤ) :
    St × List Rec :=
  let r := render_char cfg font wc 0 s
  if r.1 < 0 then (r.2.1, r.2.2)
  else
    ({r.2.1 with lineE := extents_add_extents r.2.1.lineE r.2.1.glyphE},
     r.2.2 ++ dimRecs cfg r.2.1.glyphE r.2.1.adv r.2.1.charcode)

/-- The whole font-generation loop `for(wc=' '; wc<127; wc++)`. -/
noncomputable def genfontLoop (cfg : Cfg) (font : Font) (s : St) : St × List Rec :=
  (List.range' 32 95).foldl
    (fun acc wc => let r := genfontStep cfg font acc.1 (wc : ℤ); (r.1, acc.2 ++ r.2))
    (s, [])

/-- Lookup in the generated `ft_errors` table: the first entry whose
`err_code` matches, scanning stops at the null-message terminator (the
list's end). -/
def ftErrorLookup (tbl : List (ℤ × String)) (f : ℤ) : Option String :=
  match tbl.find? (fun e => e.1 == f) with
  | some e => some e.2
  | none => none

/-- Diagnostic text of `handle_ft_error` (source lines 170-180): either
`"Fatal error in %s: %s (%d) at line:%d\n"` when the table knows the code,
or `"Fatal error in %s: %d at line:%d\n"`. -/
def ftErrorMessage (tbl : List (ℤ × String)) (wh : String) (f x : ℤ) : String :=
  match ftErrorLookup tbl f with
  | some m =>
      "Fatal error in " ++ wh ++ ": " ++ m ++ " (" ++ toString f ++ ") at line:" ++
        toString x ++ "\n"
  | none =>
      "Fatal error in " ++ wh ++ ": " ++ toString f ++ " at line:" ++ toString x ++ "\n"

/-- Error handler `handle_ft_error(char *where, int f, int x)`: writes the
diagnostic to stderr and calls `exit(x)` — `x` is the call site's
`__LINE__`, `f` the library error code.  Modelled as the pair (diagnostic,
exit status). -/
def handle_ft_error (tbl : List (ℤ × String)) (wh : String) (f x : ℤ) :
    String × ℤ :=
  (ftErrorMessage tbl wh f x, x)

/-- State at program start: `line_extents` freshly reset (source line
526), the other globals zero-initialised as C statics are — in particular
`glyph_extents` is the zero box `{0,0,0,0}`, not a reset box. -/
def st0 : St :=
  { last := ⟨0, 0⟩, glyphE := ⟨0, 0, 0, 0⟩, lineE := extents_reset,
    charcode := 0, adv := ⟨0, 0⟩, odd := false }

/-- Globals as `main` sets them with no options beyond `-f`: `csteps=100`,
`genfont=1`, `dsteps=200`, no layer, `linescale=0`. -/
noncomputable def cfgGen : Cfg :=
  { genfont := true, layer := none, csteps := 100, dsteps := 200, linescale := 0 }

/-- Globals with font-generation off and no layer (trailing-text mode). -/
noncomputable def cfgPlain : Cfg :=
  { genfont := false, layer := none, csteps := 100, dsteps := 200, linescale := 0 }

/-- Empty bitmap. -/
def emptyBitmap : Bitmap := ⟨0, 0, []⟩

/-- Test glyph for character 32: two straight segments, advance 7. -/
def glyphSpace : Glyph :=
  ⟨[.moveTo ⟨0, 0⟩, .lineTo ⟨5, 6⟩], ⟨7, 0⟩, emptyBitmap, 0, 0⟩

/-- Test glyph for character 33: its points all have x ≥ 10, advance 8. -/
def glyphBang : Glyph :=
  ⟨[.moveTo ⟨10, 10⟩, .lineTo ⟨20, 30⟩], ⟨8, 0⟩, emptyBitmap, 0, 0⟩

/-- Test font holding only characters 32 and 33. -/
def font2 : Font := fun c =>
  if c = 32 then some glyphSpace else if c = 33 then some glyphBang else none

/-- Font with no glyphs at all. -/
def fontEmpty : Font := fun _ => none

/-- One-row, one-byte bitmap with every bit set: a single span. -/
def bitmap1 : Bitmap := ⟨1, 1, [255]⟩

/-! ## Shared helper lemmas -/

/-- Fold invariant. -/
lemma foldl_invariant {α β : Type _} {Q : β → Prop} (f : β → α → β)
    (hf : ∀ b x, Q b → Q (f b x)) :
    ∀ (l : List α) (b : β), Q b → Q (l.foldl f b) := by
  intro l
  induction l with
  | nil => intro b hb; exact hb
  | cons x xs ih => intro b hb; exact ih _ (hf b x hb)

/-- Field extensionality for `Extents`. -/
lemma extents_ext {a b : Extents} (h1 : a.minx = b.minx) (h2 : a.maxx = b.maxx)
    (h3 : a.miny = b.miny) (h4 : a.maxy = b.maxy) : a = b := by
  cases a; cases b; simp_all

/-- The conditional updates of `extents_add_point` are coordinate-wise
min/max. -/
lemma extents_add_point_eq (e : Extents) (p : V) :
    extents_add_point e p =
      ⟨Min.min e.minx p.x, Max.max e.maxx p.x,
       Min.min e.miny p.y, Max.max e.maxy p.y⟩ := by
  unfold extents_add_point
  refine extents_ext ?_ ?_ ?_ ?_ <;> simp only [] <;> omega

/-- The conditional updates of `extents_add_extents` are coordinate-wise
min/max. -/
lemma extents_add_extents_eq (e1 e2 : Extents) :
    extents_add_extents e1 e2 =
      ⟨Min.min e1.minx e2.minx, Max.max e1.maxx e2.maxx,
       Min.min e1.miny e2.miny, Max.max e1.maxy e2.maxy⟩ := by
  unfold extents_add_extents
  refine extents_ext ?_ ?_ ?_ ?_ <;> simp only [] <;> omega

/-- Folding `extents_add_point` folds `min` over the x coordinates. -/
lemma foldl_addPoint_minx : ∀ (ps : List V) (e : Extents),
    (ps.foldl extents_add_point e).minx = (ps.map V.x).foldl Min.min e.minx := by
  intro ps
  induction ps with
  | nil => intro e; rfl
  | cons p ps ih =>
      intro e
      simp only [List.foldl_cons, List.map_cons, ih, extents_add_point_eq]

/-- Folding `extents_add_point` folds `max` over the x coordinates. -/
lemma foldl_addPoint_maxx : ∀ (ps : List V) (e : Extents),
    (ps.foldl extents_add_point e).maxx = (ps.map V.x).foldl Max.max e.maxx := by
  intro ps
  induction ps with
  | nil => intro e; rfl
  | cons p ps ih =>
      intro e
      simp only [List.foldl_cons, List.map_cons, ih, extents_add_point_eq]

/-- Folding `extents_add_point` folds `min` over the y coordinates. -/
lemma foldl_addPoint_miny : ∀ (ps : List V) (e : Extents),
    (ps.foldl extents_add_point e).miny = (ps.map V.y).foldl Min.min e.miny := by
  intro ps
  induction ps with
  | nil => intro e; rfl
  | cons p ps ih =>
      intro e
      simp only [List.foldl_cons, List.map_cons, ih, extents_add_point_eq]

/-- Folding `extents_add_point` folds `max` over the y coordinates. -/
lemma foldl_addPoint_maxy : ∀ (ps : List V) (e : Extents),
    (ps.foldl extents_add_point e).maxy = (ps.map V.y).foldl Max.max e.maxy := by
  intro ps
  induction ps with
  | nil => intro e; rfl
  | cons p ps ih =>
      intro e
      simp only [List.foldl_cons, List.map_cons, ih, extents_add_point_eq]

/-- A `min`-fold absorbs part of its seed. -/
lemma foldl_min_init : ∀ (xs : List ℤ) (a b : ℤ),
    xs.foldl Min.min (Min.min a b) = Min.min a (xs.foldl Min.min b) := by
  intro xs
  induction xs with
  | nil => intro a b; rfl
  | cons x xs ih => intro a b; simp only [List.foldl_cons]; rw [min_assoc, ih]

/-- A `max`-fold absorbs part of its seed. -/
lemma foldl_max_init : ∀ (xs : List ℤ) (a b : ℤ),
    xs.foldl Max.max (Max.max a b) = Max.max a (xs.foldl Max.max b) := by
  intro xs
  induction xs with
  | nil => intro a b; rfl
  | cons x xs ih => intro a b; simp only [List.foldl_cons]; rw [max_assoc, ih]

/-- A `min`-fold is bounded by its seed. -/
lemma foldl_min_le_init : ∀ (xs : List ℤ) (a : ℤ), xs.foldl Min.min a ≤ a := by
  intro xs
  induction xs with
  | nil => intro a; exact le_refl a
  | cons x xs ih =>
      intro a
      simp only [List.foldl_cons]
      exact le_trans (ih (Min.min a x)) (min_le_left a x)

/-- A `max`-fold dominates its seed. -/
lemma foldl_max_ge_init : ∀ (xs : List ℤ) (a : ℤ), a ≤ xs.foldl Max.max a := by
  intro xs
  induction xs with
  | nil => intro a; exact le_refl a
  | cons x xs ih =>
      intro a
      simp only [List.foldl_cons]
      exact le_trans (le_max_left a x) (ih (Max.max a x))

/-- A `min`-fold is a lower bound of every element. -/
lemma foldl_min_le_mem : ∀ (xs : List ℤ) (a x : ℤ), x ∈ xs → xs.foldl Min.min a ≤ x := by
  intro xs
  induction xs with
  | nil => intro a x hx; cases hx
  | cons y ys ih =>
      intro a x hx
      simp only [List.foldl_cons]
      rcases List.mem_cons.mp hx with h | h
      · subst h
        exact le_trans (foldl_min_le_init ys (Min.min a x)) (min_le_right a x)
      · exact ih (Min.min a y) x h

/-- A `max`-fold is an upper bound of every element. -/
lemma foldl_max_ge_mem : ∀ (xs : List ℤ) (a x : ℤ), x ∈ xs → x ≤ xs.foldl Max.max a := by
  intro xs
  induction xs with
  | nil => intro a x hx; cases hx
  | cons y ys ih =>
      intro a x hx
      simp only [List.foldl_cons]
      rcases List.mem_cons.mp hx with h | h
      · subst h
        exact le_trans (le_max_right a x) (foldl_max_ge_init ys (Max.max a x))
      · exact ih (Max.max a y) x h

/-- A `min`-fold lands on its seed or on an element. -/
lemma foldl_min_mem_cons : ∀ (xs : List ℤ) (a : ℤ), xs.foldl Min.min a ∈ a :: xs := by
  intro xs
  induction xs with
  | nil => intro a; exact List.mem_singleton.mpr rfl
  | cons x xs ih =>
      intro a
      simp only [List.foldl_cons]
      rcases List.mem_cons.mp (ih (Min.min a x)) with h2 | h2
      · rw [h2]
        rcases min_choice a x with h | h <;> rw [h] <;> simp
      · exact List.mem_cons.mpr (Or.inr (List.mem_cons.mpr (Or.inr h2)))

/-- A `max`-fold lands on its seed or on an element. -/
lemma foldl_max_mem_cons : ∀ (xs : List ℤ) (a : ℤ), xs.foldl Max.max a ∈ a :: xs := by
  intro xs
  induction xs with
  | nil => intro a; exact List.mem_singleton.mpr rfl
  | cons x xs ih =>
      intro a
      simp only [List.foldl_cons]
      rcases List.mem_cons.mp (ih (Max.max a x)) with h2 | h2
      · rw [h2]
        rcases max_choice a x with h | h <;> rw [h] <;> simp
      · exact List.mem_cons.mpr (Or.inr (List.mem_cons.mpr (Or.inr h2)))

/-- Merging an accumulated box is the same as re-playing its points, as
long as the receiving box's bounds are inside the reset sentinels. -/
lemma addExtents_boxOf (e : Extents) (ps : List V)
    (h1 : e.minx ≤ 2000000000) (h2 : -2000000000 ≤ e.maxx)
    (h3 : e.miny ≤ 2000000000) (h4 : -2000000000 ≤ e.maxy) :
    extents_add_extents e (boxOf ps) = ps.foldl extents_add_point e := by
  unfold boxOf
  refine extents_ext ?_ ?_ ?_ ?_
  · rw [extents_add_extents_eq]
    show Min.min e.minx ((ps.foldl extents_add_point extents_reset).minx)
        = (ps.foldl extents_add_point e).minx
    rw [foldl_addPoint_minx, foldl_addPoint_minx]
    show Min.min e.minx ((ps.map V.x).foldl Min.min 2000000000) = _
    rw [← foldl_min_init]
    rw [min_eq_left h1]
  · rw [extents_add_extents_eq]
    show Max.max e.maxx ((ps.foldl extents_add_point extents_reset).maxx)
        = (ps.foldl extents_add_point e).maxx
    rw [foldl_addPoint_maxx, foldl_addPoint_maxx]
    show Max.max e.maxx ((ps.map V.x).foldl Max.max (-2000000000)) = _
    rw [← foldl_max_init]
    rw [max_eq_left h2]
  · rw [extents_add_extents_eq]
    show Min.min e.miny ((ps.foldl extents_add_point extents_reset).miny)
        = (ps.foldl extents_add_point e).miny
    rw [foldl_addPoint_miny, foldl_addPoint_miny]
    show Min.min e.miny ((ps.map V.y).foldl Min.min 2000000000) = _
    rw [← foldl_min_init]
    rw [min_eq_left h3]
  · rw [extents_add_extents_eq]
    show Max.max e.maxy ((ps.foldl extents_add_point extents_reset).maxy)
        = (ps.foldl extents_add_point e).maxy
    rw [foldl_addPoint_maxy, foldl_addPoint_maxy]
    show Max.max e.maxy ((ps.map V.y).foldl Max.max (-2000000000)) = _
    rw [← foldl_max_init]
    rw [max_eq_left h4]

/-- Replaying any call sequence from a box inside the sentinels replays
exactly its points. -/
lemma runEOps_fold_eq : ∀ (ops : List EOp) (e : Extents),
    e.minx ≤ 2000000000 → -2000000000 ≤ e.maxx →
    e.miny ≤ 2000000000 → -2000000000 ≤ e.maxy →
    ops.foldl applyEOp e = (allPts ops).foldl extents_add_point e := by
  intro ops
  induction ops with
  | nil => intro e _ _ _ _; rfl
  | cons op ops ih =>
      intro e h1 h2 h3 h4
      have hstep : applyEOp e op = (opPoints op).foldl extents_add_point e := by
        cases op with
        | point p => rfl
        | box ps => exact addExtents_boxOf e ps h1 h2 h3 h4
      have hinv1 : (applyEOp e op).minx ≤ 2000000000 := by
        cases op with
        | point p => rw [show applyEOp e (EOp.point p) = extents_add_point e p from rfl,
            extents_add_point_eq]; exact le_trans (min_le_left _ _) h1
        | box ps => rw [show applyEOp e (EOp.box ps)
            = extents_add_extents e (boxOf ps) from rfl, extents_add_extents_eq]
                    exact le_trans (min_le_left _ _) h1
      have hinv2 : -2000000000 ≤ (applyEOp e op).maxx := by
        cases op with
        | point p => rw [show applyEOp e (EOp.point p) = extents_add_point e p from rfl,
            extents_add_point_eq]; exact le_trans h2 (le_max_left _ _)
        | box ps => rw [show applyEOp e (EOp.box ps)
            = extents_add_extents e (boxOf ps) from rfl, extents_add_extents_eq]
                    exact le_trans h2 (le_max_left _ _)
      have hinv3 : (applyEOp e op).miny ≤ 2000000000 := by
        cases op with
        | point p => rw [show applyEOp e (EOp.point p) = extents_add_point e p from rfl,
            extents_add_point_eq]; exact le_trans (min_le_left _ _) h3
        | box ps => rw [show applyEOp e (EOp.box ps)
            = extents_add_extents e (boxOf ps) from rfl, extents_add_extents_eq]
                    exact le_trans (min_le_left _ _) h3
      have hinv4 : -2000000000 ≤ (applyEOp e op).maxy := by
        cases op with
        | point p => rw [show applyEOp e (EOp.point p) = extents_add_point e p from rfl,
            extents_add_point_eq]; exact le_trans h4 (le_max_left _ _)
        | box ps => rw [show applyEOp e (EOp.box ps)
            = extents_add_extents e (boxOf ps) from rfl, extents_add_extents_eq]
                    exact le_trans h4 (le_max_left _ _)
      show List.foldl applyEOp (applyEOp e op) ops
          = (allPts (op :: ops)).foldl extents_add_point e
      rw [ih (applyEOp e op) hinv1 hinv2 hinv3 hinv4]
      have : allPts (op :: ops) = opPoints op ++ allPts ops := by
        simp [allPts]
      rw [this, List.foldl_append, ← hstep]

/-- Reachable tracker state is the box of all points passed in. -/
lemma runEOps_eq_boxOf (ops : List EOp) : runEOps ops = boxOf (allPts ops) := by
  unfold runEOps boxOf
  exact runEOps_fold_eq ops extents_reset (by decide) (by decide) (by decide) (by decide)

/-- C3.  In every state reachable from `extents_reset` by
`extents_add_point` / `extents_add_extents` calls whose point coordinates
lie strictly between the sentinels, the box is exactly the coordinate-wise
minimum/maximum over all points passed in (it contains every point and
each bound is attained by some point); each bound is monotone under any
further call; and the first `extents_add_point p` after a reset yields
exactly `{p.x, p.x, p.y, p.y}`. -/
theorem extents_smallest_box (ops : List EOp) (p : V) (e : Extents) (op : EOp)
    (hb : ∀ q ∈ allPts ops, inBounds q) (hp : inBounds p) :
    (∀ q ∈ allPts ops,
        (runEOps ops).minx ≤ q.x ∧ q.x ≤ (runEOps ops).maxx ∧
        (runEOps ops).miny ≤ q.y ∧ q.y ≤ (runEOps ops).maxy) ∧
    (allPts ops ≠ [] →
        (runEOps ops).minx ∈ (allPts ops).map V.x ∧
        (runEOps ops).maxx ∈ (allPts ops).map V.x ∧
        (runEOps ops).miny ∈ (allPts ops).map V.y ∧
        (runEOps ops).maxy ∈ (allPts ops).map V.y) ∧
    ((applyEOp e op).minx ≤ e.minx ∧ e.maxx ≤ (applyEOp e op).maxx ∧
     (applyEOp e op).miny ≤ e.miny ∧ e.maxy ≤ (applyEOp e op).maxy) ∧
    extents_add_point extents_reset p = ⟨p.x, p.x, p.y, p.y⟩ := by
  have hrun := runEOps_eq_boxOf ops
  have hminx : (runEOps ops).minx
      = ((allPts ops).map V.x).foldl Min.min 2000000000 := by
    rw [hrun]; unfold boxOf; rw [foldl_addPoint_minx]; rfl
  have hmaxx : (runEOps ops).maxx
      = ((allPts ops).map V.x).foldl Max.max (-2000000000) := by
    rw [hrun]; unfold boxOf; rw [foldl_addPoint_maxx]; rfl
  have hminy : (runEOps ops).miny
      = ((allPts ops).map V.y).foldl Min.min 2000000000 := by
    rw [hrun]; unfold boxOf; rw [foldl_addPoint_miny]; rfl
  have hmaxy : (runEOps ops).maxy
      = ((allPts ops).map V.y).foldl Max.max (-2000000000) := by
    rw [hrun]; unfold boxOf; rw [foldl_addPoint_maxy]; rfl
  refine ⟨?_, ?_, ?_, ?_⟩
  · intro q hq
    refine ⟨?_, ?_, ?_, ?_⟩
    · rw [hminx]; exact foldl_min_le_mem _ _ _ (List.mem_map_of_mem V.x hq)
    · rw [hmaxx]; exact foldl_max_ge_mem _ _ _ (List.mem_map_of_mem V.x hq)
    · rw [hminy]; exact foldl_min_le_mem _ _ _ (List.mem_map_of_mem V.y hq)
    · rw [hmaxy]; exact foldl_max_ge_mem _ _ _ (List.mem_map_of_mem V.y hq)
  · intro hne
    obtain ⟨q0, hq0⟩ := List.exists_mem_of_ne_nil _ hne
    refine ⟨?_, ?_, ?_, ?_⟩
    · rcases List.mem_cons.mp (foldl_min_mem_cons ((allPts ops).map V.x) 2000000000)
        with h | h
      · exfalso
        have h1 : (runEOps ops).minx ≤ q0.x := by
          rw [hminx]; exact foldl_min_le_mem _ _ _ (List.mem_map_of_mem V.x hq0)
        have h2 := (hb q0 hq0).2.1
        omega
      · rw [hminx]; exact h
    · rcases List.mem_cons.mp (foldl_max_mem_cons ((allPts ops).map V.x)
        (-2000000000)) with h | h
      · exfalso
        have h1 : q0.x ≤ (runEOps ops).maxx := by
          rw [hmaxx]; exact foldl_max_ge_mem _ _ _ (List.mem_map_of_mem V.x hq0)
        have h2 := (hb q0 hq0).1
        omega
      · rw [hmaxx]; exact h
    · rcases List.mem_cons.mp (foldl_min_mem_cons ((allPts ops).map V.y) 2000000000)
        with h | h
      · exfalso
        have h1 : (runEOps ops).miny ≤ q0.y := by
          rw [hminy]; exact foldl_min_le_mem _ _ _ (List.mem_map_of_mem V.y hq0)
        have h2 := (hb q0 hq0).2.2.2
        omega
      · rw [hminy]; exact h
    · rcases List.mem_cons.mp (foldl_max_mem_cons ((allPts ops).map V.y)
        (-2000000000)) with h | h
      · exfalso
        have h1 : q0.y ≤ (runEOps ops).maxy := by
          rw [hmaxy]; exact foldl_max_ge_mem _ _ _ (List.mem_map_of_mem V.y hq0)
        have h2 := (hb q0 hq0).2.2.1
        omega
      · rw [hmaxy]; exact h
  · cases op with
    | point q =>
        rw [show applyEOp e (EOp.point q) = extents_add_point e q from rfl,
          extents_add_point_eq]
        exact ⟨min_le_left _ _, le_max_left _ _, min_le_left _ _, le_max_left _ _⟩
    | box ps =>
        rw [show applyEOp e (EOp.box ps) = extents_add_extents e (boxOf ps) from rfl,
          extents_add_extents_eq]
        exact ⟨min_le_left _ _, le_max_left _ _, min_le_left _ _, le_max_left _ _⟩
  · rw [extents_add_point_eq]
    obtain ⟨b1, b2, b3, b4⟩ := hp
    refine extents_ext ?_ ?_ ?_ ?_ <;> simp only [extents_reset] <;> omega

/-- Witness for C3 at a concrete call sequence and point. -/
theorem extents_smallest_box_witness :
    extents_add_point extents_reset ⟨5, 6⟩ = ⟨5, 5, 6, 6⟩ :=
  (extents_smallest_box [EOp.point ⟨1, 2⟩, EOp.box [⟨3, 4⟩]] ⟨5, 6⟩ extents_reset
    (EOp.point ⟨0, 0⟩) (by decide) (by decide)).2.2.2

/-- C1.  With `r = 1` and internally normalised tangents, `biarc` emits
exactly one plain straight-line vertex at `p4` when the quadratic
coefficient `a` vanishes, the discriminant is negative, or the larger of
the two roots is non-positive; otherwise it selects the larger root
`beta`, forms `alpha = beta*r`, the joint `p2` as the weighted combination
of `p1 = p0 + alpha*ts` and `p3 = p4 - beta*te`, and emits arc #1 from
`p0` to `p2` with tangent `ts` followed by arc #2 from `p2` to `p4` with
tangent `p3 - p2`. -/
theorem biarc_cases (p0 ts0 p4 te0 : P) :
    biarc p0 ts0 p4 te0 1 =
      (let ts := unit ts0
       let te := unit te0
       let v := sub p0 p4
       let c := dot v v
       let b := 2 * dot v (add (scale ts 1) te)
       let a := 2 * 1 * (dot ts te - 1)
       let disc := b * b - 4 * a * c
       let beta := max ((-b - Real.sqrt disc) / 2 / a) ((-b + Real.sqrt disc) / 2 / a)
       if a = 0 ∨ disc < 0 ∨ beta ≤ 0 then [Rec.vertex p4.x p4.y]
       else
         let alpha := beta * 1
         let p1 := add p0 (scale ts alpha)
         let p3 := add p4 (scale te (-beta))
         let p2 := add (scale p1 (beta / (alpha + beta))) (scale p3 (alpha / (alpha + beta)))
         arc p0 p2 ts ++ arc p2 p4 (sub p3 p2)) := by
  simp only [biarc, line]
  split_ifs with h1 h2 h3 h4 h5 <;> first
    | rfl
    | (exfalso; tauto)

/-- C2.  When the two endpoints are collinear along the tangent (`den =
0`), `arc` does not emit a DXF vertex record of `line`'s group-code form:
it prints the leftover G-code motion line instead.  Evaluated at the
failing input `p1 = (0,0)`, `p2 = (1,0)`, `d = (1,0)`. -/
theorem arc_collinear_emits_gcode :
    arc ⟨0, 0⟩ ⟨1, 0⟩ ⟨1, 0⟩ = [Rec.gcode 1 0] ∧
    (∀ q : P, line q ≠ [Rec.gcode 1 0]) := by
  constructor
  · have hm : mag ⟨1, 0⟩ = 1 := by
      simp [mag, dot]
    have hu : unit ⟨1, 0⟩ = ⟨1, 0⟩ := by
      rw [unit, hm]
      norm_num
    rw [arc, hu]
    norm_num [sub]
  · intro q
    simp [line]

/-- Generalised length of the emit fold. -/
lemma emitFold_go_length {β γ : Type _} (F : β → ℕ → β) (H : β → ℕ → γ) :
    ∀ (l : List ℕ) (st : β) (acc : List γ),
      ((l.foldl (fun a k => (F a.1 k, a.2 ++ [H a.1 k])) (st, acc)).2).length
        = acc.length + l.length := by
  intro l
  induction l with
  | nil => intro st acc; rfl
  | cons k l ih =>
      intro st acc
      simp only [List.foldl_cons]
      rw [ih]
      simp [List.length_append]
      omega

/-- The emit fold emits one element per iteration. -/
lemma emitFold_length {β γ : Type _} (F : β → ℕ → β) (H : β → ℕ → γ)
    (l : List ℕ) (st : β) : ((emitFold F H l st).2).length = l.length := by
  unfold emitFold
  rw [emitFold_go_length]
  simp

/-- Truncating `max(2, x)` to an integer gives at least 2. -/
lemma two_le_dtoi_max (x : ℝ) : 2 ≤ (dtoi (max 2 x)).toNat := by
  have h2 : (2 : ℤ) ≤ dtoi (max 2 x) := by
    unfold dtoi max
    split_ifs with hx hneg hneg2
    · exfalso; linarith
    · exact Int.le_floor.mpr (by push_cast; linarith)
    · exfalso; norm_num at hneg2
    · exact Int.le_floor.mpr (by norm_num)
  omega

/-- C4.  For both curve handlers, the number of biarc fits performed
equals the integer truncation of `max(2, len/dsteps)` where `len` is the
sampled chord-length estimate, and is therefore always at least two. -/
theorem subdivision_counts (csteps : ℕ) (dsteps : ℝ) (lastv ctl tov c1 c2 tov2 : V)
    (hd : 0 < dsteps) :
    (conicArgs csteps dsteps lastv ctl tov).length
      = (dtoi (max 2 (conicLen csteps lastv ctl tov / dsteps))).toNat ∧
    2 ≤ (conicArgs csteps dsteps lastv ctl tov).length ∧
    (cubicArgs csteps dsteps lastv c1 c2 tov2).length
      = (dtoi (max 2 (cubicLen csteps lastv c1 c2 tov2 / dsteps))).toNat ∧
    2 ≤ (cubicArgs csteps dsteps lastv c1 c2 tov2).length := by
  have hc : (conicArgs csteps dsteps lastv ctl tov).length
      = (conicSteps csteps dsteps lastv ctl tov).toNat := by
    simp only [conicArgs]
    rw [emitFold_length]
    exact List.length_range _
  have hq : (cubicArgs csteps dsteps lastv c1 c2 tov2).length
      = (cubicSteps csteps dsteps lastv c1 c2 tov2).toNat := by
    simp only [cubicArgs]
    rw [emitFold_length]
    exact List.length_range _
  refine ⟨?_, ?_, ?_, ?_⟩
  · rw [hc]; rfl
  · rw [hc]; exact two_le_dtoi_max _
  · rw [hq]; rfl
  · rw [hq]; exact two_le_dtoi_max _

/-- Witness for C4 at a degenerate conic (all control points at the
origin, `csteps = 1`, `dsteps = 200`). -/
theorem subdivision_counts_witness :
    2 ≤ (conicArgs 1 200 ⟨0, 0⟩ ⟨0, 0⟩ ⟨0, 0⟩).length :=
  (subdivision_counts 1 200 ⟨0, 0⟩ ⟨0, 0⟩ ⟨0, 0⟩ ⟨0, 0⟩ ⟨0, 0⟩ ⟨0, 0⟩
    (by norm_num)).2.1

/-- C7.  The layer tag the program emits coincides with the
specification's description of the selection rule: in font-generation
mode the literal character for codes in `[32, 126]` and an
underscore-prefixed decimal code otherwise; the user-supplied layer name
when one is given outside font-generation mode; and no layer field when
neither applies. -/
theorem layer_tag_refines_spec (cfg : Cfg) (c : ℤ) :
    maybe_output_layer cfg c = (layerTagSpec cfg.genfont cfg.layer c).map Rec.layerTag := by
  unfold maybe_output_layer layerTagSpec
  rcases cfg with ⟨gf, ly, cs, ds, ls⟩
  cases gf with
  | false =>
      cases ly with
      | none => rfl
      | some l => rfl
  | true =>
      simp only [Option.map_some, Option.some.injEq]
      split_ifs with h1 h2 h3 <;> first
        | rfl
        | omega

/-- Charcode is untouched by `my_move_to`. -/
lemma my_move_to_charcode (cfg : Cfg) (t : V) (s : St) :
    (my_move_to cfg t s).1.charcode = s.charcode := rfl

/-- Charcode is untouched by `my_line_to`. -/
lemma my_line_to_charcode (t : V) (s : St) :
    (my_line_to t s).1.charcode = s.charcode := rfl

/-- Charcode is untouched by any outline event handler. -/
lemma runEv_charcode (cfg : Cfg) (s : St) (e : Ev) :
    (runEv cfg s e).1.charcode = s.charcode := by
  cases e <;> rfl

/-- Charcode is untouched by a whole outline walk. -/
lemma decompose_charcode (cfg : Cfg) (s : St) (evs : List Ev) :
    (decompose cfg s evs).1.charcode = s.charcode := by
  unfold decompose
  refine foldl_invariant (Q := fun (a : St × List Rec) => a.1.charcode = s.charcode)
    _ ?_ evs (s, []) rfl
  intro b e hb
  simp only []
  rw [runEv_charcode]
  exact hb

/-- Charcode is untouched by one bitmap row. -/
lemma drawRow_charcode (cfg : Cfg) (b : Bitmap) (xo yo ls : ℤ) (j : ℕ)
    (s : St) (ov : V) : (drawRow cfg b xo yo ls j s ov).1.charcode = s.charcode := by
  unfold drawRow
  simp only []
  refine foldl_invariant (Q := fun (a : St × List Rec) => a.1.charcode = s.charcode)
    _ ?_ _ _ rfl
  intro bb i hb
  simp only []
  exact hb

/-- Charcode is untouched by the bitmap tracer. -/
lemma my_draw_bitmap_charcode (cfg : Cfg) (b : Bitmap) (xo yo ls : ℤ) (s : St) :
    (my_draw_bitmap cfg b xo yo ls s).1.charcode = s.charcode := by
  unfold my_draw_bitmap
  simp only []
  refine foldl_invariant (Q := fun (a : St × V × List Rec) => a.1.charcode = s.charcode)
    _ ?_ _ _ rfl
  intro b2 j hb
  simp only []
  rw [drawRow_charcode]
  exact hb

/-- After `render_char` on a present glyph, `charcode` is the rendered
character, the advance is the glyph's, and the return value its x
advance. -/
lemma render_char_some (cfg : Cfg) (font : Font) (c off : ℤ) (s : St) (g : Glyph)
    (hg : font c = some g) :
    (render_char cfg font c off s).1 = g.advance.x ∧
    (render_char cfg font c off s).2.1.charcode = c ∧
    (render_char cfg font c off s).2.1.adv = g.advance := by
  unfold render_char
  rw [hg]
  refine ⟨rfl, ?_, rfl⟩
  simp only []
  rw [decompose_charcode]
  split_ifs with h
  · rw [my_draw_bitmap_charcode]
  · rfl

/-- C8.  A character whose glyph lookup fails renders to nothing:
`render_char` returns `-1` without emitting a record, and the
font-generation loop body skips it leaving `line_extents` (and the glyph
box) unchanged. -/
theorem missing_glyph_silent (cfg : Cfg) (font : Font) (s : St) (c : ℤ)
    (h : font c = none) :
    (render_char cfg font c 0 s).1 = -1 ∧
    (render_char cfg font c 0 s).2.2 = [] ∧
    (genfontStep cfg font s c).2 = [] ∧
    (genfontStep cfg font s c).1.lineE = s.lineE ∧
    (genfontStep cfg font s c).1.glyphE = s.glyphE := by
  have hr : render_char cfg font c 0 s = (-1, {s with charcode := c}, []) := by
    unfold render_char
    rw [h]
  refine ⟨by rw [hr], by rw [hr], ?_, ?_, ?_⟩ <;>
    · unfold genfontStep
      rw [hr]
      norm_num

/-- Witness for C8: a font with no glyphs at all, character 65. -/
theorem missing_glyph_silent_witness :
    (render_char cfgGen fontEmpty 65 0 st0).1 = -1 ∧
    (render_char cfgGen fontEmpty 65 0 st0).2.2 = [] ∧
    (genfontStep cfgGen fontEmpty st0 65).2 = [] ∧
    (genfontStep cfgGen fontEmpty st0 65).1.lineE = st0.lineE ∧
    (genfontStep cfgGen fontEmpty st0 65).1.glyphE = st0.glyphE :=
  missing_glyph_silent cfgGen fontEmpty st0 65 rfl

/-- C6.  In font-generation mode, immediately after a successfully
rendered glyph's records the loop body emits exactly six dimension
records in the fixed order `minx, maxx, miny, maxy, advx, advy`, each
carrying its metric's integer value and each followed by the same layer
tag, the one selected for the rendered character. -/
theorem genfont_six_dimensions (cfg : Cfg) (font : Font) (s : St) (c : ℤ) (g : Glyph)
    (hg : font c = some g) (hgen : cfg.genfont = true) (hadv : 0 ≤ g.advance.x) :
    ∃ t : String,
      maybe_output_layer cfg c = some (Rec.layerTag t) ∧
      (genfontStep cfg font s c).2 =
        (render_char cfg font c 0 s).2.2 ++
        [Rec.dimension "minx" (render_char cfg font c 0 s).2.1.glyphE.minx,
         Rec.layerTag t,
         Rec.dimension "maxx" (render_char cfg font c 0 s).2.1.glyphE.maxx,
         Rec.layerTag t,
         Rec.dimension "miny" (render_char cfg font c 0 s).2.1.glyphE.miny,
         Rec.layerTag t,
         Rec.dimension "maxy" (render_char cfg font c 0 s).2.1.glyphE.maxy,
         Rec.layerTag t,
         Rec.dimension "advx" g.advance.x,
         Rec.layerTag t,
         Rec.dimension "advy" g.advance.y,
         Rec.layerTag t] := by
  obtain ⟨hret, hcc, hadv2⟩ := render_char_some cfg font c 0 s g hg
  have hlay : ∃ t : String, maybe_output_layer cfg c = some (Rec.layerTag t) := by
    simp only [maybe_output_layer, hgen, if_true]
    split_ifs <;> exact ⟨_, rfl⟩
  obtain ⟨t, hlay⟩ := hlay
  refine ⟨t, hlay, ?_⟩
  unfold genfontStep
  simp only []
  rw [if_neg (by rw [hret]; omega)]
  rw [hcc, hadv2]
  unfold dimRecs
  rw [hlay]
  simp

/-- Witness for C6 at character 32 of the two-glyph test font. -/
theorem genfont_six_dimensions_witness :
    ∃ t : String,
      maybe_output_layer cfgGen 32 = some (Rec.layerTag t) ∧
      (genfontStep cfgGen font2 st0 32).2 =
        (render_char cfgGen font2 32 0 st0).2.2 ++
        [Rec.dimension "minx" (render_char cfgGen font2 32 0 st0).2.1.glyphE.minx,
         Rec.layerTag t,
         Rec.dimension "maxx" (render_char cfgGen font2 32 0 st0).2.1.glyphE.maxx,
         Rec.layerTag t,
         Rec.dimension "miny" (render_char cfgGen font2 32 0 st0).2.1.glyphE.miny,
         Rec.layerTag t,
         Rec.dimension "maxy" (render_char cfgGen font2 32 0 st0).2.1.glyphE.maxy,
         Rec.layerTag t,
         Rec.dimension "advx" glyphSpace.advance.x,
         Rec.layerTag t,
         Rec.dimension "advy" glyphSpace.advance.y,
         Rec.layerTag t] :=
  genfont_six_dimensions cfgGen font2 st0 32 glyphSpace rfl rfl (by norm_num [glyphSpace])

/-- C5 fails on the code: the font-generation loop of `main` never resets
`glyph_extents`, so the box (and the dimension records computed from it)
accumulates across glyphs.  After rendering character 32 (points `(0,0)`,
`(5,6)` merged into the zero-initialised global box) and then character
33 (points `(10,10)`, `(20,30)`), the `minx` dimension emitted for
character 33 is 0 — while the box of character 33's own points alone is
`{10, 20, 10, 30}`, whose `minx` is 10. -/
theorem genfont_no_reset_cumulative_extents :
    (genfontStep cfgGen font2 (genfontStep cfgGen font2 st0 32).1 33).2 =
      [Rec.polyStart 10 10, Rec.layerTag "!", Rec.intVertex 20 30,
       Rec.dimension "minx" 0, Rec.layerTag "!",
       Rec.dimension "maxx" 20, Rec.layerTag "!",
       Rec.dimension "miny" 0, Rec.layerTag "!",
       Rec.dimension "maxy" 30, Rec.layerTag "!",
       Rec.dimension "advx" 8, Rec.layerTag "!",
       Rec.dimension "advy" 0, Rec.layerTag "!"] ∧
    boxOf [⟨10, 10⟩, ⟨20, 30⟩] = ⟨10, 20, 10, 30⟩ ∧
    (0 : ℤ) ≠ 10 :=
  ⟨rfl, rfl, by decide⟩

/-- One bitmap row flips the winding toggle exactly once. -/
lemma drawRow_odd (cfg : Cfg) (b : Bitmap) (xo yo ls : ℤ) (j : ℕ) (s : St) (ov : V) :
    (drawRow cfg b xo yo ls j s ov).1.odd = !s.odd := by
  unfold drawRow
  simp only []
  refine foldl_invariant (Q := fun (a : St × List Rec) => a.1.odd = !s.odd)
    _ ?_ _ _ rfl
  intro bb i hb
  simp only []
  exact hb

/-- The row fold of `my_draw_bitmap` flips the toggle once per row. -/
lemma draw_fold_odd (cfg : Cfg) (b : Bitmap) (xo yo ls : ℤ) :
    ∀ (l : List ℕ) (acc : St × V × List Rec),
      ((l.foldl (fun (acc : St × V × List Rec) j =>
          let d := drawRow cfg b xo yo ls j acc.1 acc.2.1
          (d.1, d.2.1, acc.2.2 ++ d.2.2)) acc).1).odd
        = Bool.xor acc.1.odd (Nat.bodd l.length) := by
  intro l
  induction l with
  | nil => intro acc; simp
  | cons j l ih =>
      intro acc
      simp only [List.foldl_cons, List.length_cons, Nat.bodd_succ]
      rw [ih]
      simp only []
      rw [drawRow_odd]
      cases acc.1.odd <;> cases Nat.bodd l.length <;> rfl

/-- The bitmap tracer flips the toggle once per processed row. -/
lemma my_draw_bitmap_odd (cfg : Cfg) (b : Bitmap) (xo yo ls : ℤ) (s : St) :
    (my_draw_bitmap cfg b xo yo ls s).1.odd = Bool.xor s.odd (Nat.bodd b.rows) := by
  unfold my_draw_bitmap
  simp only []
  rw [draw_fold_odd]
  simp

/-- C10.  The even/odd winding toggle is process-global and never reset:
every processed row flips it (one bitmap changes it by the parity of its
row count), a sequence of bitmap-tracing calls leaves it at the parity of
the total number of rows ever processed, and the records a bitmap emits
genuinely depend on the toggle's incoming value — the same one-row bitmap
traces its single span in opposite directions for the two parities. -/
theorem bitmap_winding_parity_global :
    (∀ (cfg : Cfg) (b : Bitmap) (xo yo ls : ℤ) (s : St),
        (my_draw_bitmap cfg b xo yo ls s).1.odd = Bool.xor s.odd (Nat.bodd b.rows)) ∧
    (∀ (cfg : Cfg) (bs : List (Bitmap × ℤ × ℤ × ℤ)) (s : St),
        (bs.foldl (fun st args =>
            (my_draw_bitmap cfg args.1 args.2.1 args.2.2.1 args.2.2.2 st).1) s).odd
          = Bool.xor s.odd (Nat.bodd ((bs.map (fun args => args.1.rows)).sum))) ∧
    (my_draw_bitmap cfgPlain bitmap1 0 0 64 st0).2 ≠
      (my_draw_bitmap cfgPlain bitmap1 0 0 64 {st0 with odd := true}).2 := by
  refine ⟨my_draw_bitmap_odd, ?_, ?_⟩
  · intro cfg bs
    induction bs with
    | nil => intro s; simp
    | cons args bs ih =>
        intro s
        simp only [List.foldl_cons, List.map_cons, List.sum_cons]
        rw [ih, my_draw_bitmap_odd, Nat.bodd_add]
        cases s.odd <;> cases Nat.bodd args.1.rows <;>
          cases Nat.bodd ((bs.map (fun a => a.1.rows)).sum) <;> rfl
  · have e1 : (my_draw_bitmap cfgPlain bitmap1 0 0 64 st0).2
        = [Rec.polyStart (-1) (-32), Rec.intVertex 8 (-32)] := rfl
    have e2 : (my_draw_bitmap cfgPlain bitmap1 0 0 64 {st0 with odd := true}).2
        = [Rec.polyStart 8 (-32), Rec.intVertex (-1) (-32)] := rfl
    rw [e1, e2]
    simp

/-- C9 fails on the code as far as the exit status is concerned:
`handle_ft_error(where, f, x)` calls `exit(x)` where every call site
passes `__LINE__` as `x` — not the library error code `f`.  At the
`FT_Set_Pixel_Sizes` call site (line 403) with library code 1 the process
exits with 403, not 1. -/
theorem ft_error_exit_not_code :
    ¬ ((handle_ft_error [] "FT_Set_Pixel_Sizes" 1 403).2 = 1) := by
  decide

/-- C9 amended.  `handle_ft_error` writes a diagnostic that names the
failing operation and the library-reported code, and exits with its third
argument — the call site's source line number, not the library code. -/
theorem ft_error_diagnostic_and_exit (tbl : List (ℤ × String)) (wh : String) (f x : ℤ) :
    (handle_ft_error tbl wh f x).2 = x ∧
    ∃ s1 s2 s3 : String,
      (handle_ft_error tbl wh f x).1 = s1 ++ wh ++ s2 ++ toString f ++ s3 := by
  refine ⟨rfl, ?_⟩
  unfold handle_ft_error ftErrorMessage
  cases h : ftErrorLookup tbl f with
  | some m =>
      refine ⟨"Fatal error in ", ": " ++ m ++ " (",
        ") at line:" ++ toString x ++ "\n", ?_⟩
      simp [String.append_assoc]
  | none =>
      refine ⟨"Fatal error in ", ": ", " at line:" ++ toString x ++ "\n", ?_⟩
      simp [String.append_assoc]

end Ttf2dxf
